import Mathlib

/-!
Verification of the fertilizer-price extraction pipeline of
`src/download_data.py` (rice-price-prediction repository).

The pure core of the pipeline is shallowly embedded:

* `cleanCurrency` embeds `clean_currency`;
* `extractDateFromFilename` embeds `extract_date_from_filename`;
* `stepRow` embeds the row-classification body of `parse_pdf`'s inner loop,
  and `parseRows` / `parseTable` / `parsePage` / `parsePages` / `parseDoc`
  embed the nested page/table/row loops of `parse_pdf`;
* `processDoc` / `runCorpus` / `processFertilizerData` and
  `monthlyAggregate` embed the caching, filtering and monthly aggregation
  of `process_fertilizer_data`.

Python floats are modelled as rationals (`ℚ`); `float(...)` parsing of a
cleaned cell is modelled by `parseFloat`, a parser for finite decimal
literals with optional sign, fraction and exponent (the `inf` / `nan` /
underscore literals accepted by Python's `float` never arise from currency
cells and are outside the model).  Table cells are `Option String`
(`none` models Python `None`).

All string operations of the Python code (strip, upper, lower, split,
join, replace of single-character patterns, substring membership) are
defined by structural recursion on the character list of the string, and
all rational arithmetic is defined through `mkRat` and the `num`/`den`
projections, so that every definition evaluates inside the kernel; the
`q*_eq` bridge lemmas prove the arithmetic equal to the standard `ℚ`
operations.
-/

namespace RicePrice

/-! ## String primitives (structural equivalents of the Python methods) -/

/-- Python `str(x)` applied to a cell: `None` prints as `"None"`. -/
def pyStr : Option String → String
  | none => "None"
  | some s => s

/-- The whitespace set of Python's `str.strip()`. -/
def isPyWS (c : Char) : Bool :=
  c = ' ' || c = '\t' || c = '\n' || c = '\r' || c = '\x0b' || c = '\x0c'

/-- Drop leading and trailing whitespace from a character list. -/
def trimChars (l : List Char) : List Char :=
  ((l.dropWhile isPyWS).reverse.dropWhile isPyWS).reverse

/-- Python `s.strip()`. -/
def strip (s : String) : String := ⟨trimChars s.data⟩

/-- Python `s.upper()` (ASCII letters; the cells contain no cased
non-ASCII characters). -/
def upper (s : String) : String := ⟨s.data.map Char.toUpper⟩

/-- Python `s.lower()` (ASCII letters). -/
def lower (s : String) : String := ⟨s.data.map Char.toLower⟩

/-- Python `s.replace(c, '')` for a single-character pattern. -/
def removeChar (c : Char) (s : String) : String :=
  ⟨s.data.filter (fun x => x ≠ c)⟩

/-- Python `s.replace(a, b)` for single-character pattern and
replacement. -/
def mapChar (a b : Char) (s : String) : String :=
  ⟨s.data.map (fun c => if c = a then b else c)⟩

/-- Split a character list at `'\n'`, keeping empty pieces. -/
def splitNlChars : List Char → List Char → List (List Char)
  | [], acc => [acc.reverse]
  | c :: t, acc =>
    if c = '\n' then acc.reverse :: splitNlChars t []
    else splitNlChars t (c :: acc)

/-- Python `s.split('\n')`. -/
def splitLines (s : String) : List String :=
  (splitNlChars s.data []).map (fun l => ⟨l⟩)

/-- Python `" ".join(lines)`. -/
def joinSpace : List String → String
  | [] => ""
  | [s] => s
  | s :: t => s ++ " " ++ joinSpace t

/-- Python `s.startswith(pat)`. -/
def startsWithStr (s pat : String) : Bool :=
  pat.data.isPrefixOf s.data

/-- Substring test on character lists: Python's `pat in s`. -/
def containsSub (s pat : List Char) : Bool :=
  match s with
  | [] => pat.isEmpty
  | c :: t => pat.isPrefixOf (c :: t) || containsSub t pat

/-- Python's `pat in s` on strings (substring containment). -/
def strContainsSub (s pat : String) : Bool :=
  containsSub s.data pat.data

/-- Code-point lexicographic order on character lists: the string order
used by pandas when sorting string columns. -/
def charListLe : List Char → List Char → Bool
  | [], _ => true
  | _ :: _, [] => false
  | a :: as, b :: bs => if a = b then charListLe as bs else a < b

/-- Code-point lexicographic `≤` on strings. -/
def strLe (s t : String) : Bool := charListLe s.data t.data

/-! ## Kernel-computable rational arithmetic -/

/-- Addition on `ℚ` through `mkRat` (see `qAdd_eq`). -/
def qAdd (a b : ℚ) : ℚ :=
  mkRat (a.num * b.den + b.num * a.den) (a.den * b.den)

/-- Multiplication on `ℚ` through `mkRat` (see `qMul_eq`). -/
def qMul (a b : ℚ) : ℚ := mkRat (a.num * b.num) (a.den * b.den)

/-- Inverse on `ℚ` through `mkRat` (see `qInv_eq`). -/
def qInv (b : ℚ) : ℚ :=
  if 0 ≤ b.num then mkRat (Int.ofNat b.den) b.num.toNat
  else mkRat (-(Int.ofNat b.den)) (-b.num).toNat

/-- Division on `ℚ` through `mkRat` (see `qDiv_eq`). -/
def qDiv (a b : ℚ) : ℚ := qMul a (qInv b)

/-- Negation on `ℚ` through `mkRat` (see `qNeg_eq`). -/
def qNeg (a : ℚ) : ℚ := mkRat (-a.num) a.den

/-- `(10 : ℚ) ^ n` through `mkRat` (see `qPow10_eq`). -/
def qPow10 (n : Nat) : ℚ := mkRat (Int.ofNat (10 ^ n)) 1

/-- `(10 : ℚ) ^ e` for an integer exponent (see `qPow10Int_eq`). -/
def qPow10Int (e : Int) : ℚ :=
  if 0 ≤ e then mkRat (Int.ofNat (10 ^ e.toNat)) 1
  else mkRat 1 (10 ^ (-e).toNat)

/-- List sum through `qAdd` (see `qSum_eq`). -/
def qSum (xs : List ℚ) : ℚ := xs.foldl qAdd (mkRat 0 1)

/-! ## Currency normalizer (`clean_currency`) -/

/-- Numeric value of a digit run (most significant first). -/
def digitsVal (l : List Char) : Nat :=
  l.foldl (fun a c => a * 10 + (c.toNat - 48)) 0

/-- Parse the mantissa part of a Python float literal: digits with an
optional decimal point, at least one digit present. -/
def parseMantissa (l : List Char) : Option ℚ :=
  let ip := l.takeWhile (fun c => c ≠ '.')
  match l.dropWhile (fun c => c ≠ '.') with
  | [] =>
    if !ip.isEmpty && ip.all Char.isDigit then some (mkRat (digitsVal ip) 1)
    else none
  | _ :: fp =>
    if (!ip.isEmpty || !fp.isEmpty) && ip.all Char.isDigit && fp.all Char.isDigit
    then some (qAdd (mkRat (digitsVal ip) 1) (qDiv (mkRat (digitsVal fp) 1) (qPow10 fp.length)))
    else none

/-- Parse the exponent part (after `e`/`E`) of a Python float literal. -/
def parseExpPart : List Char → Option Int
  | [] => none
  | '+' :: ds =>
    if !ds.isEmpty && ds.all Char.isDigit then some ((digitsVal ds : Int)) else none
  | '-' :: ds =>
    if !ds.isEmpty && ds.all Char.isDigit then some (-(digitsVal ds : Int)) else none
  | ds =>
    if ds.all Char.isDigit then some ((digitsVal ds : Int)) else none

/-- Python `float(s)` on an already-stripped string, restricted to finite
decimal literals: optional sign, digits with optional decimal point,
optional exponent.  `none` where Python raises `ValueError`. -/
def parseFloat (s : String) : Option ℚ :=
  let l := s.data
  let signed : Bool × List Char :=
    match l with
    | '+' :: t => (false, t)
    | '-' :: t => (true, t)
    | t => (false, t)
  let mant := signed.2.takeWhile (fun c => c ≠ 'e' && c ≠ 'E')
  let base : Option ℚ :=
    match signed.2.dropWhile (fun c => c ≠ 'e' && c ≠ 'E') with
    | [] => parseMantissa mant
    | _ :: expPart => do
      let m ← parseMantissa mant
      let e ← parseExpPart expPart
      pure (qMul m (qPow10Int e))
  base.map (fun q => if signed.1 then qNeg q else q)

/-- Embeds `clean_currency` (src/download_data.py:106-113): missing, empty
or whitespace-only cells give `none`; otherwise commas and spaces are
removed, the ends stripped, and the result parsed as a float, with parse
failure absorbed into `none`. -/
def cleanCurrency : Option String → Option ℚ
  | none => none
  | some s =>
    if s = "" || strip s = "" then none
    else parseFloat (strip (removeChar ' ' (removeChar ',' s)))

/-! ## Filename date inferrer (`extract_date_from_filename`) -/

/-- The month-token list of `extract_date_from_filename`, in source order
(before sorting). -/
def monthsRaw : List String :=
  ["january", "february", "march", "april", "may", "june", "july", "august",
   "september", "october", "november", "december", "jan", "feb", "mar",
   "apr", "may", "jun", "jul", "aug", "sep", "sept", "oct", "nov", "dec"]

/-- The month-token list after `months.sort(key=len, reverse=True)`: a
stable sort by decreasing length (modelled by the stable
`List.insertionSort`). -/
def monthsSorted : List String :=
  monthsRaw.insertionSort (fun a b => b.length ≤ a.length)

/-- First month token of `monthsSorted` that matches at the head of `l`:
the alternation order of the regex `(m1|m2|...)` at one position. -/
def firstMonthAt (l : List Char) : Option String :=
  monthsSorted.find? (fun m => m.data.isPrefixOf l)

/-- Leftmost regex-style search for a month token: try each position left
to right, at each position try the alternatives in `monthsSorted` order. -/
def findMonthTok : List Char → Option String
  | [] => none
  | c :: t =>
    match firstMonthAt (c :: t) with
    | some m => some m
    | none => findMonthTok t

/-- Leftmost search for the regex `20\d{2}`, returning the year value. -/
def findYear4 : List Char → Option Nat
  | c1 :: c2 :: c3 :: c4 :: rest =>
    if c1 = '2' ∧ c2 = '0' ∧ c3.isDigit = true ∧ c4.isDigit = true
    then some (2000 + 10 * (c3.toNat - 48) + (c4.toNat - 48))
    else findYear4 (c2 :: c3 :: c4 :: rest)
  | _ => none

/-- `filename.lower().replace('_', '-').replace('.', '-')`. -/
def normalizeFilename (s : String) : String :=
  mapChar '.' '-' (mapChar '_' '-' (lower s))

/-- A (year, month) document period; day is always normalized to the 1st. -/
structure MonthDate where
  year : Nat
  month : Nat
deriving DecidableEq, Repr

/-- Month-name lookup of `pd.to_datetime(f"{month_str} 1 {year}")` on the
canonical tokens (after the `sept` → `sep` rewrite). -/
def monthNum : String → Option Nat
  | "january" | "jan" => some 1
  | "february" | "feb" => some 2
  | "march" | "mar" => some 3
  | "april" | "apr" => some 4
  | "may" => some 5
  | "june" | "jun" => some 6
  | "july" | "jul" => some 7
  | "august" | "aug" => some 8
  | "september" | "sep" => some 9
  | "october" | "oct" => some 10
  | "november" | "nov" => some 11
  | "december" | "dec" => some 12
  | _ => none

/-- Embeds `extract_date_from_filename` (src/download_data.py:123-141).
`none` models `pd.NaT` ("undetermined"). -/
def extractDateFromFilename (filename : String) : Option MonthDate :=
  let fl := normalizeFilename filename
  let year := findYear4 fl.data
  let monthStr := findMonthTok fl.data
  match monthStr, year with
  | some m, some y =>
    (monthNum (if m = "sept" then "sep" else m)).map (fun mn => ⟨y, mn⟩)
  | _, _ => none

/-! ## Row classifier and document parser (`parse_pdf`) -/

/-- One normalized output record, as built by `create_entry`
(src/download_data.py:115-121).  `Month`/`Year` columns are derived from
`date`; `prices` is the fixed-size list of 7 optional values
(Urea_Prilled, Urea_Granular, Ammosul, Complete, Ammophos, MOP, DAP). -/
structure Entry where
  date : MonthDate
  region : String
  province : String
  prices : List (Option ℚ)
  sourceFile : String
deriving DecidableEq, Repr

/-- A raw table row: an ordered list of possibly-missing cell texts. -/
abbrev Row := List (Option String)

/-- `create_entry`: pad/truncate the price list to exactly 7 entries. -/
def createEntry (fd : MonthDate) (region province : String)
    (prices : List (Option ℚ)) (fname : String) : Entry :=
  ⟨fd, region, province, (prices ++ List.replicate 7 none).take 7, fname⟩

/-- `[clean_currency(c) for c in row[1:8]]`. -/
def rowPrices (row : Row) : List (Option ℚ) :=
  ((row.drop 1).take 7).map cleanCurrency

/-- Python truthiness of one cleaned price: `None` and `0.0` are falsy. -/
def priceTruthy : Option ℚ → Bool
  | none => false
  | some q => q ≠ 0

/-- Python `any(prices)` on the cleaned price list. -/
def anyTruthy (ps : List (Option ℚ)) : Bool :=
  ps.any priceTruthy

/-- Embeds the body of `parse_pdf`'s row loop (src/download_data.py:153-184):
classify one row given the current region, returning the new region and the
emitted record, if any (`none` models both `continue` and a discarded
all-falsy row). -/
def stepRow (fd : MonthDate) (fname : String) (r : String) (row : Row) :
    String × Option Entry :=
  match row with
  | [] => (r, none)
  | c0 :: _ =>
    let raw := strip (pyStr c0)
    if raw = "" then (r, none)
    else
      let up := upper raw
      if strContainsSub up "REGION" && strContainsSub up "PROVINCE" then (r, none)
      else if strContainsSub up "FERTILIZER" || strContainsSub up "UREA" then (r, none)
      else if startsWithStr up "46-0-0" || up == "PRICE" then (r, none)
      else if strContainsSub up "REGION" || up == "CAR" || up == "CARAGA" || up == "BARMM" then
        let lines := splitLines raw
        let newRegion := strip (lines.headD "")
        let prices := rowPrices row
        if lines.length == 1 then
          (newRegion,
           if anyTruthy prices
           then some (createEntry fd newRegion "Regional Summary" prices fname)
           else none)
        else
          let province := strip (joinSpace lines.tail)
          (newRegion,
           if anyTruthy prices
           then some (createEntry fd newRegion province prices fname)
           else none)
      else if up == "AVE" || up == "AVERAGE PRICE" then
        let prices := rowPrices row
        (r,
         if anyTruthy prices
         then some (createEntry fd r "Regional Average" prices fname)
         else none)
      else
        let province := strip (mapChar '\n' ' ' raw)
        let prices := rowPrices row
        (r,
         if anyTruthy prices
         then some (createEntry fd r province prices fname)
         else none)

/-- Fold `stepRow` over a list of rows, threading the region context and
accumulating emitted records. -/
def parseRows (fd : MonthDate) (fname : String)
    (st : String × List Entry) (rows : List Row) : String × List Entry :=
  rows.foldl
    (fun st row =>
      let next := stepRow fd fname st.1 row
      (next.1, st.2 ++ next.2.toList))
    st

/-- The `for row in table` loop of `parse_pdf`. -/
def parseTable (fd : MonthDate) (fname : String)
    (st : String × List Entry) (table : List Row) : String × List Entry :=
  parseRows fd fname st table

/-- The `for table in page.extract_tables()` loop of `parse_pdf`. -/
def parsePage (fd : MonthDate) (fname : String)
    (st : String × List Entry) (page : List (List Row)) : String × List Entry :=
  page.foldl (parseTable fd fname) st

/-- The `for page in pdf.pages` loop of `parse_pdf`. -/
def parsePages (fd : MonthDate) (fname : String)
    (st : String × List Entry) (pages : List (List (List Row))) :
    String × List Entry :=
  pages.foldl (parsePage fd fname) st

/-- A fetched document: its filename plus the table grid returned by the
table-extraction collaborator (pages of tables of rows of cells). -/
structure Doc where
  name : String
  pages : List (List (List Row))
deriving DecidableEq

/-- Embeds `parse_pdf` (src/download_data.py:143-185): return no records
when the filename date is undetermined; otherwise thread
`current_region = "Unknown"` across all pages, tables and rows. -/
def parseDoc (d : Doc) : List Entry :=
  match extractDateFromFilename d.name with
  | none => []
  | some fd => (parsePages fd d.name ("Unknown", []) d.pages).2

/-- The region-marker test of rule 5, after rules 1-4 have declined the
row: `"REGION" in first_col or first_col in ["CAR", "CARAGA", "BARMM"]`
reached only by rows not skipped earlier. -/
def regionMarkerRow (row : Row) : Bool :=
  match row with
  | [] => false
  | c0 :: _ =>
    let raw := strip (pyStr c0)
    if raw = "" then false
    else
      let up := upper raw
      if strContainsSub up "REGION" && strContainsSub up "PROVINCE" then false
      else if strContainsSub up "FERTILIZER" || strContainsSub up "UREA" then false
      else if startsWithStr up "46-0-0" || up == "PRICE" then false
      else strContainsSub up "REGION" || up == "CAR" || up == "CARAGA" || up == "BARMM"

/-- The region a marker row installs: `lines[0].strip()` of the stripped
first cell. -/
def markerRegion (row : Row) : String :=
  match row with
  | [] => ""
  | c0 :: _ => strip ((splitLines (strip (pyStr c0))).headD "")

/-! ## Corpus aggregator (`process_fertilizer_data`) -/

/-- Grouping key of the monthly aggregation: (Year, Month, Region,
Province).  The pandas code groups on the month *name* column; since the
name is derived from the month number the partition is the same. -/
structure GroupKey where
  year : Nat
  month : Nat
  region : String
  province : String
deriving DecidableEq, Repr

/-- The grouping key of one record (its `Year`/`Month` columns are derived
from `date` in `create_entry`). -/
def entryKey (e : Entry) : GroupKey :=
  ⟨e.date.year, e.date.month, e.region, e.province⟩

/-- `date.month_name()`: the `Month` column stored by `create_entry`. -/
def monthName : Nat → String
  | 1 => "January"
  | 2 => "February"
  | 3 => "March"
  | 4 => "April"
  | 5 => "May"
  | 6 => "June"
  | 7 => "July"
  | 8 => "August"
  | 9 => "September"
  | 10 => "October"
  | 11 => "November"
  | 12 => "December"
  | _ => ""

/-- Group-key order of `groupby(['Year','Month','Region','Province'])`
(pandas sorts group keys; the `Month` component is the name string). -/
def keyLe1 (a b : GroupKey) : Bool :=
  if a.year = b.year then
    if monthName a.month = monthName b.month then
      if a.region = b.region then strLe a.province b.province
      else strLe a.region b.region
    else strLe (monthName a.month) (monthName b.month)
  else a.year < b.year

/-- Row order of the final `sort_values(by=["Date", "Province"])`: the
reconstructed date is the first of the month, so it orders by
(year, month), then by province. -/
def keyLe2 (a b : GroupKey) : Bool :=
  if a.year = b.year then
    if a.month = b.month then strLe a.province b.province
    else a.month < b.month
  else a.year < b.year

/-- One row of the monthly aggregate output. -/
structure AggRow where
  year : Nat
  month : Nat
  region : String
  province : String
  prices : List (Option ℚ)
deriving DecidableEq, Repr

/-- The (Date, Province) order on aggregate rows. -/
def aggRowLe (a b : AggRow) : Bool :=
  if a.year = b.year then
    if a.month = b.month then strLe a.province b.province
    else a.month < b.month
  else a.year < b.year

/-- `~region_7_df['Province'].isin(['Regional Summary', 'Regional Average'])`. -/
def notSentinel (e : Entry) : Bool :=
  !(e.province == "Regional Summary" || e.province == "Regional Average")

/-- pandas `mean` aggregation of one column: the arithmetic mean of the
non-null values, null when every value is null (see `colMean_eq`). -/
def colMean (vs : List (Option ℚ)) : Option ℚ :=
  let xs := vs.filterMap id
  if xs.isEmpty then none else some (qDiv (qSum xs) (mkRat xs.length 1))

/-- The records of one `groupby` group. -/
def groupFor (recs : List Entry) (k : GroupKey) : List Entry :=
  recs.filter (fun e => entryKey e == k)

/-- The aggregate row of one group: the 7 per-column means. -/
def aggRow (recs : List Entry) (k : GroupKey) : AggRow :=
  ⟨k.year, k.month, k.region, k.province,
   (List.range 7).map
     (fun i => colMean ((groupFor recs k).map (fun e => e.prices.getD i none)))⟩

/-- Embeds the aggregation tail of `process_fertilizer_data`
(src/download_data.py:236-244): drop sentinel provinces, group by
(Year, Month, Region, Province) with sorted group keys, average the 7
price columns, then stably re-sort by (Date, Province). -/
def monthlyAggregate (records : List Entry) : List AggRow :=
  let provRecs := records.filter notSentinel
  let keys := (provRecs.map entryKey).dedup
  let keys1 := keys.insertionSort (fun a b => keyLe1 a b = true)
  let keys2 := keys1.insertionSort (fun a b => keyLe2 a b = true)
  keys2.map (aggRow provRecs)

/-- The per-document cache directory: base name of the document mapped to
its extracted records (the sibling `.csv` artifact). -/
abbrev Cache := List (String × List Entry)

/-- `csv_name.exists()` plus the `pd.read_csv` load, as one lookup. -/
def lookupCache (c : Cache) (name : String) : Option (List Entry) :=
  (c.find? (fun p => p.1 == name)).map (fun p => p.2)

/-- Embeds the per-document branch of `process_fertilizer_data`
(src/download_data.py:209-223): a cache hit loads the records without
re-parsing; a miss parses and, only when non-empty, persists the records
as the cache artifact; an empty parse contributes nothing. -/
def processDoc (c : Cache) (d : Doc) : Cache × Option (List Entry) :=
  match lookupCache c d.name with
  | some recs => (c, some recs)
  | none =>
    let recs := parseDoc d
    if recs.isEmpty then (c, none)
    else ((d.name, recs) :: c, some recs)

/-- The `for pdf_file in pdf_files` loop: fold `processDoc` over the
corpus, collecting each document's record list into `all_data`. -/
def runCorpus (c : Cache) (docs : List Doc) : Cache × List (List Entry) :=
  docs.foldl
    (fun st d =>
      let next := processDoc st.1 d
      (next.1, st.2 ++ next.2.toList))
    (c, [])

/-- `full_df['Region'].str.contains("REGION VII", case=False)`:
case-insensitive substring match. -/
def regionMatch (s : String) : Bool :=
  strContainsSub (upper s) "REGION VII"

/-- The same predicate with `na=False`: a missing region never matches. -/
def regionMatchNa : Option String → Bool
  | none => false
  | some s => regionMatch s

/-- Outcome of one aggregator run.  Only `written` models a write of the
aggregate output file; the other constructors model the three
user-visible empty-result reports followed by `return`. -/
inductive RunResult where
  | noLinks : RunResult
  | noData : RunResult
  | noRegionData : RunResult
  | written : List AggRow → RunResult
deriving DecidableEq

/-- Embeds `process_fertilizer_data` (src/download_data.py:187-249) from
link discovery onwards: one `Doc` per discovered link, the shared cache
directory as `Cache`.  The function is total: no branch raises. -/
def processFertilizerData (c : Cache) (docs : List Doc) : RunResult :=
  if docs.isEmpty then .noLinks
  else
    let allData := (runCorpus c docs).2
    if allData.isEmpty then .noData
    else
      let region7 := allData.flatten.filter (fun e => regionMatch e.region)
      if region7.isEmpty then .noRegionData
      else .written (monthlyAggregate region7)

/-! ## Concrete test data (used by witnesses) -/

/-- September 2023, the document period of the worked examples. -/
def d0 : MonthDate := ⟨2023, 9⟩

/-- The spec's single-line region-marker example row. -/
def rowCARAGA : Row :=
  [some "CARAGA", some "850", some "900", none, none, none, none, none]

/-- The record `rowCARAGA` produces. -/
def entryCARAGA : Entry :=
  ⟨⟨2023, 9⟩, "CARAGA", "Regional Summary",
   [some 850, some 900, none, none, none, none, none], "f.pdf"⟩

/-- A row whose only parsed price is `0` (Python-falsy). -/
def rowZero : Row :=
  [some "Cebu", some "0", some "", none, none, none, none, none]

/-- A row all of whose price cells normalize to no value. -/
def rowAllBlank : Row := [some "Cebu", some "", some "n/a", none]

/-- A document labelled REGION VIII, for the substring-filter claim. -/
def docV8 : Doc :=
  ⟨"x_sept_2023.pdf", [[[[some "REGION VIII\nLeyte", some "100"]]]]⟩

/-- The aggregate row `docV8` contributes. -/
def aggV8 : AggRow :=
  ⟨2023, 9, "REGION VIII", "Leyte",
   [some 100, none, none, none, none, none, none]⟩

/-- Two province records sharing a group key, Urea_Prilled 100 and 200. -/
def e100 : Entry :=
  ⟨⟨2023, 9⟩, "REGION VII", "Cebu",
   [some 100, none, none, none, none, none, none], "a.pdf"⟩

/-- Second record of the mean example. -/
def e200 : Entry :=
  ⟨⟨2023, 9⟩, "REGION VII", "Cebu",
   [some 200, none, none, none, none, none, none], "b.pdf"⟩

/-- A sentinel-province record with a price, for the exclusion example. -/
def eSentinel : Entry :=
  ⟨⟨2023, 9⟩, "REGION VII", "Regional Summary",
   [some 999, none, none, none, none, none, none], "a.pdf"⟩

/-- A two-line region-marker row installing "REGION VII". -/
def rowMarkerV7 : Row := [some "REGION VII\nCebu", some "100"]

/-- A document whose filename has no month: the date is undetermined. -/
def docNoDate : Doc := ⟨"report_2023.pdf", [[[[some "REGION VII", some "850"]]]]⟩

/-- A parsable document outside Region VII. -/
def docLuzon : Doc := ⟨"x_jan_2023.pdf", [[[[some "REGION I\nIlocos", some "5"]]]]⟩

/-- A header row that rule 2 skips. -/
def rowHeader : Row := [some "REGION/PROVINCE", some "46-0-0"]

/-- An ordinary province row following the marker. -/
def rowBohol : Row := [some "Bohol", some "5"]

/-! ## Bridge lemmas: the `q*` arithmetic is the standard `ℚ` arithmetic -/

lemma qAdd_eq (a b : ℚ) : qAdd a b = a + b := by
  rw [qAdd, Rat.mkRat_eq_divInt]
  have ha : (a.den : ℤ) ≠ 0 := Int.ofNat_ne_zero.2 a.den_nz
  have hb : (b.den : ℤ) ≠ 0 := Int.ofNat_ne_zero.2 b.den_nz
  conv_rhs => rw [← Rat.num_divInt_den a, ← Rat.num_divInt_den b]
  rw [Rat.divInt_add_divInt _ _ ha hb]
  push_cast
  ring_nf

lemma qMul_eq (a b : ℚ) : qMul a b = a * b := by
  rw [qMul, Rat.mkRat_eq_divInt]
  conv_rhs => rw [← Rat.num_divInt_den a, ← Rat.num_divInt_den b]
  rw [Rat.divInt_mul_divInt']
  push_cast
  ring_nf

lemma qInv_eq (b : ℚ) : qInv b = b⁻¹ := by
  rw [qInv, Rat.inv_def']
  rcases lt_trichotomy b.num 0 with h | h | h
  · rw [if_neg (not_le.2 h), Rat.mkRat_eq_divInt]
    rw [Int.toNat_of_nonneg (by omega : (0:ℤ) ≤ -b.num)]
    rw [Rat.neg_divInt_neg]
    rfl
  · rw [if_pos (le_of_eq h.symm), Rat.mkRat_eq_divInt, h]
    simp
  · rw [if_pos (le_of_lt h), Rat.mkRat_eq_divInt]
    rw [Int.toNat_of_nonneg (le_of_lt h)]
    rfl

lemma qDiv_eq (a b : ℚ) : qDiv a b = a / b := by
  rw [qDiv, qMul_eq, qInv_eq, div_eq_mul_inv]

lemma qNeg_eq (a : ℚ) : qNeg a = -a := by
  rw [qNeg, Rat.mkRat_eq_divInt, ← Rat.neg_divInt, Rat.num_divInt_den]

lemma qPow10_eq (n : Nat) : qPow10 n = (10 : ℚ) ^ n := by
  rw [qPow10, Rat.mkRat_eq_divInt]
  simp only [Nat.cast_one, Rat.divInt_one, Int.ofNat_eq_coe]
  push_cast
  ring_nf

lemma qPow10Int_eq (e : Int) : qPow10Int e = (10 : ℚ) ^ e := by
  rw [qPow10Int]
  split
  · rename_i h
    rw [Rat.mkRat_eq_divInt]
    simp only [Nat.cast_one, Rat.divInt_one, Int.ofNat_eq_coe]
    have he : e = ((e.toNat : ℕ) : ℤ) := by omega
    conv_rhs => rw [he]
    rw [zpow_natCast]
    push_cast
    ring_nf
  · rename_i h
    rw [Rat.mkRat_eq_divInt, Rat.divInt_eq_div]
    have he : e = -(((-e).toNat : ℕ) : ℤ) := by omega
    conv_rhs => rw [he]
    rw [zpow_neg, zpow_natCast]
    push_cast
    rw [one_div]

lemma qSum_go (xs : List ℚ) : ∀ z : ℚ, xs.foldl qAdd z = z + xs.sum := by
  induction xs with
  | nil => intro z; simp
  | cons x t ih =>
    intro z
    simp only [List.foldl_cons, List.sum_cons, ih, qAdd_eq]
    ring

lemma qSum_eq (xs : List ℚ) : qSum xs = xs.sum := by
  have h0 : (mkRat 0 1 : ℚ) = 0 := by decide
  rw [qSum, qSum_go, h0, zero_add]

/-- `colMean` is the arithmetic mean of the non-null values. -/
lemma colMean_eq (vs : List (Option ℚ)) :
    colMean vs =
      if (vs.filterMap id).isEmpty then none
      else some ((vs.filterMap id).sum / ((vs.filterMap id).length : ℚ)) := by
  rw [colMean]
  split
  · rfl
  · rw [qDiv_eq, qSum_eq, Rat.mkRat_eq_divInt, Rat.divInt_eq_div]
    push_cast
    norm_num

/-! ## Helper lemmas -/

lemma rowPrices_length_le (row : Row) : (rowPrices row).length ≤ 7 := by
  simp only [rowPrices, List.length_map]
  exact le_trans (List.length_take_le _ _) (le_refl _)

lemma anyTruthy_false_of_none_or_zero (ps : List (Option ℚ))
    (h : ∀ p ∈ ps, p = none ∨ p = some 0) : anyTruthy ps = false := by
  simp only [anyTruthy, List.any_eq_false]
  intro p hp
  rcases h p hp with h0 | h0 <;> simp [h0, priceTruthy]

lemma stepRow_none_of_not_truthy (fd : MonthDate) (fname r : String) (row : Row)
    (h : anyTruthy (rowPrices row) = false) :
    (stepRow fd fname r row).2 = none := by
  unfold stepRow
  cases row with
  | nil => rfl
  | cons c0 rest =>
    simp only
    split
    · rfl
    · split
      · rfl
      · split
        · rfl
        · split
          · rfl
          · split
            · split <;> simp [h]
            · split
              · simp [h]
              · simp [h]

lemma stepRow_some_spec (fd : MonthDate) (fname r : String) (row : Row) (e : Entry)
    (h : (stepRow fd fname r row).2 = some e) :
    anyTruthy (rowPrices row) = true ∧
      e.prices = (rowPrices row ++ List.replicate 7 none).take 7 := by
  by_cases ht : anyTruthy (rowPrices row) = true
  · refine ⟨ht, ?_⟩
    unfold stepRow at h
    cases row with
    | nil => simp at h
    | cons c0 rest =>
      simp only at h
      repeat' split at h
      all_goals first
        | (rw [← Option.some.inj h]; rfl)
        | simp at h
  · rw [stepRow_none_of_not_truthy fd fname r row (by simpa using ht)] at h
    exact absurd h (by simp)

lemma padded_any_isSome (ps : List (Option ℚ)) (hlen : ps.length ≤ 7)
    (h : anyTruthy ps = true) :
    ((ps ++ List.replicate 7 none).take 7).any Option.isSome = true := by
  rw [List.take_append_eq_append_take, List.take_of_length_le hlen]
  simp only [anyTruthy, List.any_eq_true] at h ⊢
  obtain ⟨p, hp, htr⟩ := h
  refine ⟨p, List.mem_append_left _ hp, ?_⟩
  cases p with
  | none => simp [priceTruthy] at htr
  | some q => rfl

lemma stepRow_fst_of_not_marker (fd : MonthDate) (fname r : String) (row : Row)
    (h : regionMarkerRow row = false) :
    (stepRow fd fname r row).1 = r := by
  unfold stepRow
  unfold regionMarkerRow at h
  cases row with
  | nil => rfl
  | cons c0 rest =>
    simp only at h ⊢
    split
    · rfl
    · rename_i h0
      rw [if_neg h0] at h
      split
      · rfl
      · rename_i hc1
        rw [if_neg hc1] at h
        split
        · rfl
        · rename_i hc2
          rw [if_neg hc2] at h
          split
          · rfl
          · rename_i hc3
            rw [if_neg hc3] at h
            split
            · rename_i hc4
              rw [hc4] at h
              simp at h
            · split <;> rfl

lemma stepRow_fst_of_marker (fd : MonthDate) (fname r : String) (row : Row)
    (h : regionMarkerRow row = true) :
    (stepRow fd fname r row).1 = markerRegion row := by
  unfold stepRow
  unfold regionMarkerRow at h
  cases row with
  | nil => simp at h
  | cons c0 rest =>
    simp only at h ⊢
    unfold markerRegion
    split
    · rename_i h0
      rw [if_pos h0] at h
      simp at h
    · rename_i h0
      rw [if_neg h0] at h
      split
      · rename_i hc1
        rw [if_pos hc1] at h
        simp at h
      · rename_i hc1
        rw [if_neg hc1] at h
        split
        · rename_i hc2
          rw [if_pos hc2] at h
          simp at h
        · rename_i hc2
          rw [if_neg hc2] at h
          split
          · rename_i hc3
            rw [if_pos hc3] at h
            simp at h
          · rename_i hc3
            rw [if_neg hc3] at h
            rw [if_pos h]
            split <;> rfl

lemma stepRow_entry_region (fd : MonthDate) (fname r : String) (row : Row)
    (e : Entry) (h : (stepRow fd fname r row).2 = some e) :
    e.region = (stepRow fd fname r row).1 := by
  rcases hsr : stepRow fd fname r row with ⟨s, o⟩
  rw [hsr] at h
  replace h : o = some e := h
  subst h
  show e.region = s
  unfold stepRow at hsr
  cases row with
  | nil => simp at hsr
  | cons c0 rest =>
    simp only at hsr
    repeat' split at hsr
    all_goals (rw [Prod.mk.injEq] at hsr; obtain ⟨h1, h2⟩ := hsr)
    all_goals first
      | exact Option.noConfusion h2
      | (rw [← Option.some.inj h2]; exact h1)

lemma parseRows_cons (fd : MonthDate) (fname : String)
    (st : String × List Entry) (row : Row) (rows : List Row) :
    parseRows fd fname st (row :: rows) =
      parseRows fd fname
        ((stepRow fd fname st.1 row).1,
         st.2 ++ (stepRow fd fname st.1 row).2.toList) rows := rfl

lemma parseRows_acc (fd : MonthDate) (fname : String) (r : String)
    (acc : List Entry) (rows : List Row) :
    parseRows fd fname (r, acc) rows =
      ((parseRows fd fname (r, []) rows).1,
       acc ++ (parseRows fd fname (r, []) rows).2) := by
  induction rows generalizing r acc with
  | nil => simp [parseRows]
  | cons row t ih =>
    rw [parseRows_cons, parseRows_cons]
    simp only [List.nil_append]
    rw [ih ((stepRow fd fname r row).1) (acc ++ (stepRow fd fname r row).2.toList),
        ih ((stepRow fd fname r row).1) ((stepRow fd fname r row).2.toList)]
    simp [List.append_assoc]

lemma parseRows_no_marker (fd : MonthDate) (fname : String) (r : String)
    (rows : List Row) (h : ∀ row ∈ rows, regionMarkerRow row = false) :
    (parseRows fd fname (r, []) rows).1 = r ∧
    ∀ e ∈ (parseRows fd fname (r, []) rows).2, e.region = r := by
  induction rows generalizing r with
  | nil => exact ⟨rfl, by simp [parseRows]⟩
  | cons row t ih =>
    have hrow : regionMarkerRow row = false := h row (List.mem_cons_self _ _)
    have hfst : (stepRow fd fname r row).1 = r :=
      stepRow_fst_of_not_marker fd fname r row hrow
    have ht : ∀ x ∈ t, regionMarkerRow x = false :=
      fun x hx => h x (List.mem_cons_of_mem _ hx)
    obtain ⟨ih1, ih2⟩ := ih r ht
    rw [parseRows_cons]
    simp only [hfst]
    rw [parseRows_acc]
    refine ⟨ih1, ?_⟩
    intro e he
    rcases List.mem_append.1 he with he | he
    · simp only [List.nil_append] at he
      have := stepRow_entry_region fd fname r row e (by
        cases hs : (stepRow fd fname r row).2 with
        | none => simp [hs] at he
        | some e2 => simp [hs] at he; rw [he])
      rw [this, hfst]
    · exact ih2 e he

lemma parseRows_append (fd : MonthDate) (fname : String)
    (st : String × List Entry) (a b : List Row) :
    parseRows fd fname st (a ++ b) =
      parseRows fd fname (parseRows fd fname st a) b := by
  simp [parseRows, List.foldl_append]

lemma parsePage_eq_parseRows (fd : MonthDate) (fname : String)
    (st : String × List Entry) (page : List (List Row)) :
    parsePage fd fname st page = parseRows fd fname st page.flatten := by
  induction page generalizing st with
  | nil => rfl
  | cons t ts ih =>
    simp only [parsePage, List.foldl_cons, List.flatten_cons]
    rw [parseRows_append]
    exact ih _

lemma parsePages_eq_parseRows (fd : MonthDate) (fname : String)
    (st : String × List Entry) (pages : List (List (List Row))) :
    parsePages fd fname st pages =
      parseRows fd fname st pages.flatten.flatten := by
  induction pages generalizing st with
  | nil => rfl
  | cons p ps ih =>
    show parsePages fd fname (parsePage fd fname st p) ps =
      parseRows fd fname st (p :: ps).flatten.flatten
    rw [ih (parsePage fd fname st p), parsePage_eq_parseRows,
        List.flatten_cons, List.flatten_append, parseRows_append]

lemma charListLe_total : ∀ a b : List Char,
    charListLe a b = true ∨ charListLe b a = true := by
  intro a
  induction a with
  | nil => intro b; left; rfl
  | cons x xs ih =>
    intro b
    cases b with
    | nil => right; rfl
    | cons y ys =>
      by_cases hxy : x = y
      · subst hxy
        rcases ih ys with h | h
        · left; simpa [charListLe] using h
        · right; simpa [charListLe] using h
      · rcases lt_or_gt_of_ne hxy with h | h
        · left; simp [charListLe, hxy, h]
        · right
          simp only [charListLe]
          rw [if_neg (fun hk : y = x => hxy hk.symm)]
          simpa using h

lemma charListLe_trans : ∀ a b c : List Char,
    charListLe a b = true → charListLe b c = true → charListLe a c = true := by
  intro a
  induction a with
  | nil => intro b c _ _; rfl
  | cons x xs ih =>
    intro b c hab hbc
    cases b with
    | nil => simp [charListLe] at hab
    | cons y ys =>
      cases c with
      | nil => simp [charListLe] at hbc
      | cons z zs =>
        simp only [charListLe] at hab hbc ⊢
        by_cases hxy : x = y <;> by_cases hyz : y = z
        · subst hxy; subst hyz
          rw [if_pos rfl] at hab hbc ⊢
          exact ih ys zs hab hbc
        · subst hxy
          rw [if_pos rfl] at hab
          rw [if_neg hyz] at hbc ⊢
          exact hbc
        · subst hyz
          rw [if_neg hxy] at hab ⊢
          exact hab
        · rw [if_neg hxy] at hab
          rw [if_neg hyz] at hbc
          simp only [decide_eq_true_eq] at hab hbc
          have hxz : x < z := lt_trans hab hbc
          rw [if_neg (ne_of_lt hxz)]
          simpa using hxz

lemma keyLe2_iff (a b : GroupKey) :
    keyLe2 a b = true ↔
      a.year < b.year ∨ (a.year = b.year ∧
        (a.month < b.month ∨
          (a.month = b.month ∧ strLe a.province b.province = true))) := by
  unfold keyLe2
  split <;> rename_i h1
  · split <;> rename_i h2
    · simp [h1, h2]
    · simp only [decide_eq_true_eq]
      constructor
      · intro h; exact Or.inr ⟨h1, Or.inl h⟩
      · rintro (h | ⟨-, h | ⟨h, -⟩⟩) <;> omega
  · simp only [decide_eq_true_eq]
    constructor
    · intro h; exact Or.inl h
    · rintro (h | ⟨h, -⟩) <;> omega

lemma keyLe2_total (a b : GroupKey) : keyLe2 a b = true ∨ keyLe2 b a = true := by
  rw [keyLe2_iff, keyLe2_iff]
  rcases Nat.lt_trichotomy a.year b.year with h | h | h
  · exact Or.inl (Or.inl h)
  · rcases Nat.lt_trichotomy a.month b.month with h2 | h2 | h2
    · exact Or.inl (Or.inr ⟨h, Or.inl h2⟩)
    · rcases charListLe_total a.province.data b.province.data with h3 | h3
      · exact Or.inl (Or.inr ⟨h, Or.inr ⟨h2, h3⟩⟩)
      · exact Or.inr (Or.inr ⟨h.symm, Or.inr ⟨h2.symm, h3⟩⟩)
    · exact Or.inr (Or.inr ⟨h.symm, Or.inl h2⟩)
  · exact Or.inr (Or.inl h)

lemma keyLe2_trans (a b c : GroupKey) (hab : keyLe2 a b = true)
    (hbc : keyLe2 b c = true) : keyLe2 a c = true := by
  rw [keyLe2_iff] at hab hbc ⊢
  rcases hab with h | ⟨h, h'⟩
  · rcases hbc with g | ⟨g, -⟩
    · left; omega
    · left; omega
  · rcases hbc with g | ⟨g, g'⟩
    · left; omega
    · refine Or.inr ⟨by omega, ?_⟩
      rcases h' with h2 | ⟨h2, h3⟩
      · rcases g' with g2 | ⟨g2, -⟩ <;> [left; left] <;> omega
      · rcases g' with g2 | ⟨g2, g3⟩
        · left; omega
        · exact Or.inr ⟨by omega, charListLe_trans _ _ _ h3 g3⟩

lemma monthlyAggregate_sorted (rs : List Entry) :
    List.Pairwise (fun x y : AggRow => aggRowLe x y = true)
      (monthlyAggregate rs) := by
  haveI : IsTotal GroupKey (fun a b => keyLe2 a b = true) := ⟨keyLe2_total⟩
  haveI : IsTrans GroupKey (fun a b => keyLe2 a b = true) := ⟨keyLe2_trans⟩
  unfold monthlyAggregate
  simp only
  have hs := List.sorted_insertionSort (fun a b : GroupKey => keyLe2 a b = true)
    (((rs.filter notSentinel).map entryKey).dedup.insertionSort
      (fun a b => keyLe1 a b = true))
  refine List.Pairwise.map _ ?_ hs
  intro k k' hk
  exact hk

lemma lookupCache_insert_self (c : Cache) (name : String) (recs : List Entry) :
    lookupCache ((name, recs) :: c) name = some recs := by
  simp [lookupCache, List.find?_cons]

lemma lookupCache_insert_ne (c : Cache) (name n : String) (recs : List Entry)
    (h : n ≠ name) : lookupCache ((name, recs) :: c) n = lookupCache c n := by
  have hb : (name == n) = false := beq_eq_false_iff_ne.mpr (fun he => h he.symm)
  simp [lookupCache, List.find?_cons, hb]

lemma processDoc_hit (c : Cache) (d : Doc) (recs : List Entry)
    (h : lookupCache c d.name = some recs) : processDoc c d = (c, some recs) := by
  simp [processDoc, h]

lemma processDoc_miss_nonempty (c : Cache) (d : Doc)
    (h : lookupCache c d.name = none) (hp : parseDoc d ≠ []) :
    processDoc c d = ((d.name, parseDoc d) :: c, some (parseDoc d)) := by
  simp [processDoc, h, hp]

lemma processDoc_miss_empty (c : Cache) (d : Doc)
    (h : lookupCache c d.name = none) (hp : parseDoc d = []) :
    processDoc c d = (c, none) := by
  simp [processDoc, h, hp]

lemma runCorpus_acc (c : Cache) (acc : List (List Entry)) (ds : List Doc) :
    ds.foldl
      (fun st d =>
        let next := processDoc st.1 d
        (next.1, st.2 ++ next.2.toList)) (c, acc) =
      ((runCorpus c ds).1, acc ++ (runCorpus c ds).2) := by
  induction ds generalizing c acc with
  | nil => simp [runCorpus]
  | cons d t ih =>
    simp only [List.foldl_cons, runCorpus]
    rw [ih ((processDoc c d).1) (acc ++ (processDoc c d).2.toList),
        ih ((processDoc c d).1) ([] ++ (processDoc c d).2.toList)]
    simp [List.append_assoc]

lemma runCorpus_cons (c : Cache) (d : Doc) (ds : List Doc) :
    runCorpus c (d :: ds) =
      ((runCorpus (processDoc c d).1 ds).1,
       (processDoc c d).2.toList ++ (runCorpus (processDoc c d).1 ds).2) := by
  show (d :: ds).foldl
      (fun st d =>
        let next := processDoc st.1 d
        (next.1, st.2 ++ next.2.toList)) (c, []) = _
  rw [List.foldl_cons]
  simp only
  rw [runCorpus_acc]
  simp

lemma runCorpus_cache_spec (ds : List Doc) (c : Cache) :
    (∀ (n : String) (r : List Entry),
      lookupCache c n = some r → lookupCache (runCorpus c ds).1 n = some r) ∧
    (∀ (n : String) (r : List Entry),
      lookupCache (runCorpus c ds).1 n = some r →
      lookupCache c n = some r ∨
        (lookupCache c n = none ∧
          ∃ d ∈ ds, d.name = n ∧ r = parseDoc d ∧ r ≠ [])) := by
  induction ds generalizing c with
  | nil => exact ⟨fun n r h => h, fun n r h => Or.inl h⟩
  | cons d t ih =>
    rw [runCorpus_cons]
    simp only
    rcases hl : lookupCache c d.name with _ | recs
    · by_cases hp : parseDoc d = []
      · rw [processDoc_miss_empty c d hl hp]
        obtain ⟨ihf, ihb⟩ := ih c
        refine ⟨ihf, ?_⟩
        intro n r h
        rcases ihb n r h with h2 | ⟨h2, d2, hd2, he⟩
        · exact Or.inl h2
        · exact Or.inr ⟨h2, d2, List.mem_cons_of_mem _ hd2, he⟩
      · rw [processDoc_miss_nonempty c d hl hp]
        obtain ⟨ihf, ihb⟩ := ih ((d.name, parseDoc d) :: c)
        constructor
        · intro n r h
          have hne : n ≠ d.name := fun he => by rw [he, hl] at h; cases h
          exact ihf n r ((lookupCache_insert_ne c d.name n _ hne).symm ▸ h)
        · intro n r h
          rcases ihb n r h with h2 | ⟨h2, d2, hd2, hdn, he⟩
          · by_cases hne : n = d.name
            · subst hne
              rw [lookupCache_insert_self] at h2
              have hr : r = parseDoc d := (Option.some.inj h2).symm
              subst hr
              exact Or.inr ⟨hl, d, List.mem_cons_self _ _, rfl, rfl, hp⟩
            · rw [lookupCache_insert_ne c d.name n _ hne] at h2
              exact Or.inl h2
          · by_cases hne : n = d.name
            · subst hne
              rw [lookupCache_insert_self] at h2
              cases h2
            · rw [lookupCache_insert_ne c d.name n _ hne] at h2
              exact Or.inr ⟨h2, d2, List.mem_cons_of_mem _ hd2, hdn, he⟩
    · rw [processDoc_hit c d recs hl]
      obtain ⟨ihf, ihb⟩ := ih c
      refine ⟨ihf, ?_⟩
      intro n r h
      rcases ihb n r h with h2 | ⟨h2, d2, hd2, he⟩
      · exact Or.inl h2
      · exact Or.inr ⟨h2, d2, List.mem_cons_of_mem _ hd2, he⟩

lemma runCorpus_contains_nonempty (ds : List Doc) (c : Cache) :
    ∀ d ∈ ds, parseDoc d ≠ [] → lookupCache (runCorpus c ds).1 d.name ≠ none := by
  induction ds generalizing c with
  | nil => intro d hd; cases hd
  | cons d0 t ih =>
    intro d hd hp
    rw [runCorpus_cons]
    simp only
    rcases List.mem_cons.1 hd with rfl | hd
    · rcases hl : lookupCache c d.name with _ | recs
      · rw [processDoc_miss_nonempty c d hl hp]
        have h1 := lookupCache_insert_self c d.name (parseDoc d)
        have := (runCorpus_cache_spec t ((d.name, parseDoc d) :: c)).1 d.name _ h1
        simp [this]
      · rw [processDoc_hit c d recs hl]
        have := (runCorpus_cache_spec t c).1 d.name recs hl
        simp [this]
    · exact ih ((processDoc c d0).1) d hd hp

lemma runCorpus_stable (ds : List Doc) (c1 c2 : Cache)
    (hA : ∀ (n : String) (r : List Entry),
      lookupCache c1 n = some r → lookupCache c2 n = some r)
    (hB : ∀ d ∈ ds, ∀ r : List Entry, lookupCache c2 d.name = some r →
      lookupCache c1 d.name = some r ∨
        (lookupCache c1 d.name = none ∧ r = parseDoc d ∧ r ≠ []))
    (hC : ∀ d ∈ ds, parseDoc d ≠ [] → lookupCache c2 d.name ≠ none)
    (hname : ∀ d1 ∈ ds, ∀ d2 ∈ ds, d1.name = d2.name → d1 = d2) :
    runCorpus c2 ds = (c2, (runCorpus c1 ds).2) := by
  induction ds generalizing c1 c2 with
  | nil => simp [runCorpus]
  | cons d t ih =>
    have hmem : d ∈ d :: t := List.mem_cons_self _ _
    rcases hl1 : lookupCache c1 d.name with _ | r1
    · rcases hl2 : lookupCache c2 d.name with _ | r2
      · -- both miss: the parse must be empty, else hC is violated
        have hp : parseDoc d = [] := by
          by_contra hp
          exact hC d hmem hp hl2
        rw [runCorpus_cons, runCorpus_cons,
            processDoc_miss_empty c1 d hl1 hp, processDoc_miss_empty c2 d hl2 hp]
        simp only
        have := ih c1 c2 hA
          (fun d2 hd2 => hB d2 (List.mem_cons_of_mem _ hd2))
          (fun d2 hd2 => hC d2 (List.mem_cons_of_mem _ hd2))
          (fun d1 hd1 d2 hd2 =>
            hname d1 (List.mem_cons_of_mem _ hd1) d2 (List.mem_cons_of_mem _ hd2))
        rw [this]
      · -- run-1 misses, run-2 hits: the hit must hold the parse result
        rcases hB d hmem r2 hl2 with h | ⟨-, hr2, hne⟩
        · rw [h] at hl1; cases hl1
        · subst hr2
          rw [runCorpus_cons, runCorpus_cons,
              processDoc_miss_nonempty c1 d hl1 hne, processDoc_hit c2 d _ hl2]
          simp only
          have := ih ((d.name, parseDoc d) :: c1) c2
            (by
              intro n r h
              by_cases hnn : n = d.name
              · subst hnn
                rw [lookupCache_insert_self] at h
                rw [← Option.some.inj h]
                exact hl2
              · rw [lookupCache_insert_ne c1 d.name n _ hnn] at h
                exact hA n r h)
            (by
              intro d2 hd2 r h
              rcases hB d2 (List.mem_cons_of_mem _ hd2) r h with h2 | ⟨h2, hr, hn⟩
              · left
                have hnn : d2.name ≠ d.name := by
                  intro he
                  have : d2 = d := hname d2 (List.mem_cons_of_mem _ hd2) d hmem he
                  subst this
                  rw [h2] at hl1; cases hl1
                rw [lookupCache_insert_ne c1 d.name d2.name _ hnn]
                exact h2
              · by_cases hnn : d2.name = d.name
                · have : d2 = d := hname d2 (List.mem_cons_of_mem _ hd2) d hmem hnn
                  subst this
                  left
                  rw [lookupCache_insert_self, hr]
                · right
                  rw [lookupCache_insert_ne c1 d.name d2.name _ hnn]
                  exact ⟨h2, hr, hn⟩)
            (fun d2 hd2 => hC d2 (List.mem_cons_of_mem _ hd2))
            (fun d1 hd1 d2 hd2 =>
              hname d1 (List.mem_cons_of_mem _ hd1) d2 (List.mem_cons_of_mem _ hd2))
          rw [this]
    · -- run-1 hits; run-2 must agree
      have hl2 : lookupCache c2 d.name = some r1 := hA d.name r1 hl1
      rw [runCorpus_cons, runCorpus_cons,
          processDoc_hit c1 d r1 hl1, processDoc_hit c2 d r1 hl2]
      simp only
      have := ih c1 c2 hA
        (fun d2 hd2 => hB d2 (List.mem_cons_of_mem _ hd2))
        (fun d2 hd2 => hC d2 (List.mem_cons_of_mem _ hd2))
        (fun d1 hd1 d2 hd2 =>
          hname d1 (List.mem_cons_of_mem _ hd1) d2 (List.mem_cons_of_mem _ hd2))
      rw [this]

/-! ## Claim theorems -/

/-- C4: the currency normalizer returns no value for missing, empty or
whitespace-only cells and for cells non-numeric after comma/whitespace
removal (e.g. "N/A"), and returns the parsed decimal otherwise
(e.g. "1,234.50" yields 1234.5).  It is a total function, so it never
raises. -/
theorem c4_clean_currency :
    cleanCurrency none = none ∧
    (∀ s : String, strip s = "" → cleanCurrency (some s) = none) ∧
    (∀ s : String,
      parseFloat (strip (removeChar ' ' (removeChar ',' s))) = none →
      cleanCurrency (some s) = none) ∧
    (∀ (s : String) (q : ℚ), strip s ≠ "" →
      parseFloat (strip (removeChar ' ' (removeChar ',' s))) = some q →
      cleanCurrency (some s) = some q) ∧
    cleanCurrency (some "N/A") = none ∧
    cleanCurrency (some "1,234.50") = some (2469 / 2 : ℚ) := by
  have h50 : cleanCurrency (some "1,234.50") = some (mkRat 2469 2) := by decide
  have hq : (mkRat 2469 2 : ℚ) = 2469 / 2 := by
    rw [Rat.mkRat_eq_divInt, Rat.divInt_eq_div]
    norm_num
  refine ⟨rfl, ?_, ?_, ?_, by decide, by rw [h50, hq]⟩
  · intro s h
    simp only [cleanCurrency]
    rw [if_pos]
    simp [h]
  · intro s h
    simp only [cleanCurrency]
    split
    · rfl
    · exact h
  · intro s q hs hp
    have hs' : ¬s = "" := fun h => hs (by rw [h]; rfl)
    simp only [cleanCurrency]
    rw [if_neg (by simp [hs, hs']), hp]

/-- C4 witness: the whitespace-only and the comma-separated cases,
via the general theorem. -/
theorem c4_clean_currency_witness :
    cleanCurrency (some "   ") = none ∧
    cleanCurrency (some "1,234.50") = some (2469 / 2 : ℚ) :=
  ⟨c4_clean_currency.2.1 "   " (by decide),
   c4_clean_currency.2.2.2.1 "1,234.50" (2469 / 2 : ℚ) (by decide)
     (by
       have h : parseFloat (strip (removeChar ' ' (removeChar ',' "1,234.50"))) =
           some (mkRat 2469 2) := by decide
       rw [h, Rat.mkRat_eq_divInt, Rat.divInt_eq_div]
       norm_num)⟩

/-- C9: a row whose price cells all normalize to no value or to 0 is
discarded exactly like an all-null row — the emission check is Python
truthiness, and 0.0 is falsy. -/
theorem c9_zero_only_row_discarded :
    ∀ (fd : MonthDate) (fname r : String) (row : Row),
      (∀ p ∈ rowPrices row, p = none ∨ p = some 0) →
      (stepRow fd fname r row).2 = none := by
  intro fd fname r row h
  exact stepRow_none_of_not_truthy fd fname r row
    (anyTruthy_false_of_none_or_zero _ h)

/-- C9 witness: a province row whose only numeric price is `0` emits
nothing. -/
theorem c9_zero_only_row_discarded_witness :
    (stepRow d0 "f.pdf" "REGION VII" rowZero).2 = none :=
  c9_zero_only_row_discarded d0 "f.pdf" "REGION VII" rowZero (by decide)

/-- C2: every emitted record has at least one non-null price, and a row
all of whose price cells normalize to no value emits nothing, whatever
the classification branch. -/
theorem c2_nonnull_price_invariant :
    (∀ (fd : MonthDate) (fname r : String) (row : Row) (e : Entry),
      (stepRow fd fname r row).2 = some e →
      e.prices.any Option.isSome = true) ∧
    (∀ (fd : MonthDate) (fname r : String) (row : Row),
      (∀ p ∈ rowPrices row, p = none) →
      (stepRow fd fname r row).2 = none) := by
  constructor
  · intro fd fname r row e h
    obtain ⟨ht, hp⟩ := stepRow_some_spec fd fname r row e h
    rw [hp]
    exact padded_any_isSome _ (rowPrices_length_le row) ht
  · intro fd fname r row h
    exact stepRow_none_of_not_truthy fd fname r row
      (anyTruthy_false_of_none_or_zero _ (fun p hp => Or.inl (h p hp)))

/-- C2 witness: the CARAGA example record has a non-null price, and an
all-blank row emits nothing. -/
theorem c2_nonnull_price_invariant_witness :
    entryCARAGA.prices.any Option.isSome = true ∧
    (stepRow d0 "f.pdf" "REGION VII" rowAllBlank).2 = none :=
  ⟨c2_nonnull_price_invariant.1 d0 "f.pdf" "Unknown" rowCARAGA entryCARAGA
      (by decide),
   c2_nonnull_price_invariant.2 d0 "f.pdf" "REGION VII" rowAllBlank
      (by decide)⟩

/-- C10: the regional filter keeps exactly the records whose region
contains "REGION VII" case-insensitively (a missing region never
matches, by `na=False`); in particular "REGION VIII" also matches and
flows into the written aggregate. -/
theorem c10_region_filter_substring :
    (∀ (l : List Entry) (e : Entry),
      e ∈ l.filter (fun e => regionMatch e.region) ↔
        e ∈ l ∧ regionMatch e.region = true) ∧
    regionMatchNa none = false ∧
    regionMatch "REGION VIII" = true ∧
    regionMatch "Region VII - Central Visayas" = true ∧
    processFertilizerData [] [docV8] = RunResult.written [aggV8] := by
  refine ⟨?_, rfl, by decide, by decide, by decide⟩
  intro l e
  simp [List.mem_filter]

/-- C1: a row whose stripped, uppercased first cell contains "REGION" or
equals CAR/CARAGA/BARMM, and which no earlier rule skipped (blank cell;
REGION-and-PROVINCE header; FERTILIZER/UREA header; 46-0-0 or PRICE
label), is a region-marker row: the first newline-separated line of the
cell becomes the new region; with a single line the row's next 7 cells
are classified under province "Regional Summary", and with several lines
the remaining lines joined by a single space become the province label
for this row's prices. -/
theorem c1_region_marker_row (fd : MonthDate) (fname r : String)
    (c0 : Option String) (rest : List (Option String))
    (hblank : strip (pyStr c0) ≠ "")
    (h1 : (strContainsSub (upper (strip (pyStr c0))) "REGION" &&
           strContainsSub (upper (strip (pyStr c0))) "PROVINCE") = false)
    (h2 : (strContainsSub (upper (strip (pyStr c0))) "FERTILIZER" ||
           strContainsSub (upper (strip (pyStr c0))) "UREA") = false)
    (h3 : (startsWithStr (upper (strip (pyStr c0))) "46-0-0" ||
           upper (strip (pyStr c0)) == "PRICE") = false)
    (h5 : (strContainsSub (upper (strip (pyStr c0))) "REGION" ||
           upper (strip (pyStr c0)) == "CAR" ||
           upper (strip (pyStr c0)) == "CARAGA" ||
           upper (strip (pyStr c0)) == "BARMM") = true) :
    (stepRow fd fname r (c0 :: rest)).1 =
      strip ((splitLines (strip (pyStr c0))).headD "") ∧
    (stepRow fd fname r (c0 :: rest)).2 =
      (if (splitLines (strip (pyStr c0))).length == 1 then
        (if anyTruthy (rowPrices (c0 :: rest)) then
          some (createEntry fd (strip ((splitLines (strip (pyStr c0))).headD ""))
            "Regional Summary" (rowPrices (c0 :: rest)) fname)
         else none)
       else
        (if anyTruthy (rowPrices (c0 :: rest)) then
          some (createEntry fd (strip ((splitLines (strip (pyStr c0))).headD ""))
            (strip (joinSpace (splitLines (strip (pyStr c0))).tail))
            (rowPrices (c0 :: rest)) fname)
         else none)) := by
  unfold stepRow
  simp only [if_neg hblank, h1, h2, h3, h5, Bool.false_eq_true, if_false, if_true]
  constructor
  · split <;> rfl
  · split <;> rfl

/-- C1 witness: the spec's `["CARAGA", "850", "900", None, ...]` example,
via the general theorem. -/
theorem c1_region_marker_row_witness :
    (stepRow d0 "f.pdf" "Unknown" rowCARAGA).1 = "CARAGA" ∧
    (stepRow d0 "f.pdf" "Unknown" rowCARAGA).2 = some entryCARAGA := by
  have h := c1_region_marker_row d0 "f.pdf" "Unknown" (some "CARAGA")
    [some "850", some "900", none, none, none, none, none]
    (by decide) (by decide) (by decide) (by decide) (by decide)
  have hrow : rowCARAGA =
      some "CARAGA" :: [some "850", some "900", none, none, none, none, none] := rfl
  constructor
  · rw [hrow, h.1]
    decide
  · rw [hrow, h.2]
    decide

/-- C3: the date inferrer lowercases and normalizes separators, then
independently searches for a year `20xx` and a month token (longer
tokens before shorter ones, with "sept" canonicalized to "sep"); both
found gives the first of that month/year, either missing gives
undetermined (`none`), and the document parser then returns zero
records for that document. -/
theorem c3_filename_date :
    List.Pairwise (fun a b => b.length ≤ a.length) monthsSorted ∧
    (∀ f : String,
      findMonthTok (normalizeFilename f).data = none ∨
        findYear4 (normalizeFilename f).data = none →
      extractDateFromFilename f = none) ∧
    (∀ (f m : String) (y : Nat),
      findMonthTok (normalizeFilename f).data = some m →
      findYear4 (normalizeFilename f).data = some y →
      extractDateFromFilename f =
        (monthNum (if m = "sept" then "sep" else m)).map
          (fun mn => (⟨y, mn⟩ : MonthDate))) ∧
    extractDateFromFilename "FPA_Fertilizer_September_2023.pdf" =
      some ⟨2023, 9⟩ ∧
    extractDateFromFilename "report_2023.pdf" = none ∧
    extractDateFromFilename "WFP_Sept_2023.pdf" = some ⟨2023, 9⟩ ∧
    (∀ (name : String) (pages : List (List (List Row))),
      extractDateFromFilename name = none → parseDoc ⟨name, pages⟩ = []) := by
  refine ⟨by decide, ?_, ?_, by decide, by decide, by decide, ?_⟩
  · intro f h
    rcases h with h | h
    · simp [extractDateFromFilename, h]
    · cases hm : findMonthTok (normalizeFilename f).data <;>
        simp [extractDateFromFilename, h, hm]
  · intro f m y hm hy
    simp [extractDateFromFilename, hm, hy]
  · intro name pages h
    simp [parseDoc, h]

/-- C3 witness: the no-month document yields an undetermined date and an
empty parse, via the general theorem. -/
theorem c3_filename_date_witness :
    parseDoc ⟨"report_2023.pdf", [[[[some "REGION VII", some "850"]]]]⟩ = [] :=
  c3_filename_date.2.2.2.2.2.2 "report_2023.pdf"
    [[[[some "REGION VII", some "850"]]]]
    (c3_filename_date.2.1 "report_2023.pdf" (Or.inl (by decide)))

/-- C5: within one document `current_region` starts as "Unknown", is
updated only by region-marker rows, and persists across subsequent rows,
tables and pages: every record emitted after a marker row, with no later
marker in between, carries that marker's region, even across intervening
skip rows. -/
theorem c5_region_persistence :
    (∀ (fd : MonthDate) (fname r : String) (row : Row),
      regionMarkerRow row = false → (stepRow fd fname r row).1 = r) ∧
    (∀ (fd : MonthDate) (fname r : String) (row : Row),
      regionMarkerRow row = true →
      (stepRow fd fname r row).1 = markerRegion row) ∧
    (∀ (fd : MonthDate) (fname r : String) (mrow : Row) (rows : List Row),
      regionMarkerRow mrow = true →
      (∀ row ∈ rows, regionMarkerRow row = false) →
      ∀ e ∈ (parseRows fd fname (r, []) (mrow :: rows)).2,
        e.region = markerRegion mrow) ∧
    (∀ (fd : MonthDate) (fname : String) (st : String × List Entry)
        (pages : List (List (List Row))),
      parsePages fd fname st pages =
        parseRows fd fname st pages.flatten.flatten) ∧
    (∀ (name : String) (pages : List (List (List Row))) (fd : MonthDate),
      extractDateFromFilename name = some fd →
      parseDoc ⟨name, pages⟩ = (parsePages fd name ("Unknown", []) pages).2) := by
  refine ⟨stepRow_fst_of_not_marker, stepRow_fst_of_marker, ?_, ?_, ?_⟩
  · intro fd fname r mrow rows hm hrows e he
    rw [parseRows_cons] at he
    simp only [List.nil_append] at he
    rw [stepRow_fst_of_marker fd fname r mrow hm] at he
    rw [parseRows_acc] at he
    replace he : e ∈ (stepRow fd fname r mrow).2.toList ++
        (parseRows fd fname (markerRegion mrow, []) rows).2 := he
    rcases List.mem_append.1 he with he | he
    · cases hs : (stepRow fd fname r mrow).2 with
      | none => rw [hs] at he; simp at he
      | some e2 =>
        rw [hs] at he
        simp only [Option.toList_some, List.mem_singleton] at he
        subst he
        rw [stepRow_entry_region fd fname r mrow e hs,
          stepRow_fst_of_marker fd fname r mrow hm]
    · exact (parseRows_no_marker fd fname (markerRegion mrow) rows hrows).2 e he
  · exact parsePages_eq_parseRows
  · intro name pages fd h
    simp [parseDoc, h]

/-- C5 witness: a two-line REGION VII marker followed by a header skip
row and a province row; all emitted records carry "REGION VII". -/
theorem c5_region_persistence_witness :
    ∀ e ∈ (parseRows d0 "f.pdf" ("Unknown", [])
        [rowMarkerV7, rowHeader, rowBohol]).2,
      e.region = "REGION VII" := by
  intro e he
  have h := c5_region_persistence.2.2.1 d0 "f.pdf" "Unknown" rowMarkerV7
    [rowHeader, rowBohol] (by decide) (by decide) e he
  rw [h]
  decide

/-- C6: the monthly aggregation excludes sentinel provinces ("Regional
Summary" / "Regional Average"), groups the remaining records by
(year, month, region, province), takes the arithmetic mean of each of
the 7 price fields per group (100 and 200 aggregate to 150), and the
result is sorted ascending by (date, province), the date being the
first of the group's month. -/
theorem c6_monthly_aggregation :
    (∀ rs : List Entry,
      monthlyAggregate rs = monthlyAggregate (rs.filter notSentinel)) ∧
    monthlyAggregate [e100, eSentinel, e200] =
      [⟨2023, 9, "REGION VII", "Cebu",
        [some (((100 : ℚ) + 200) / 2), none, none, none, none, none, none]⟩] ∧
    (∀ rs : List Entry,
      List.Pairwise (fun x y : AggRow => aggRowLe x y = true)
        (monthlyAggregate rs)) := by
  refine ⟨?_, ?_, monthlyAggregate_sorted⟩
  · intro rs
    unfold monthlyAggregate
    rw [List.filter_filter]
    simp [Bool.and_self]
  · have h2 : (((100 : ℚ) + 200) / 2) = 150 := by norm_num
    rw [h2]
    decide

/-- C7: per-document processing is a check-else-compute-and-store cache
(hit loads without re-parsing; miss parses and persists only a non-empty
result), and a second run over an unchanged document set and cache
directory repeats neither parses nor cache writes and produces the same
corpus and the same aggregate output.  The hypothesis expresses that the
document store is a filesystem: a base name denotes one document. -/
theorem c7_cache_idempotent (c : Cache) (docs : List Doc)
    (hname : ∀ d1 ∈ docs, ∀ d2 ∈ docs, d1.name = d2.name → d1 = d2) :
    (∀ (c2 : Cache) (d : Doc) (recs : List Entry),
      lookupCache c2 d.name = some recs → processDoc c2 d = (c2, some recs)) ∧
    (∀ (c2 : Cache) (d : Doc), lookupCache c2 d.name = none →
      parseDoc d ≠ [] →
      processDoc c2 d = ((d.name, parseDoc d) :: c2, some (parseDoc d))) ∧
    (∀ (c2 : Cache) (d : Doc), lookupCache c2 d.name = none →
      parseDoc d = [] → processDoc c2 d = (c2, none)) ∧
    runCorpus (runCorpus c docs).1 docs = runCorpus c docs ∧
    processFertilizerData (runCorpus c docs).1 docs =
      processFertilizerData c docs := by
  have hrun : runCorpus (runCorpus c docs).1 docs = runCorpus c docs := by
    have hA := (runCorpus_cache_spec docs c).1
    have hB : ∀ d ∈ docs, ∀ r : List Entry,
        lookupCache (runCorpus c docs).1 d.name = some r →
        lookupCache c d.name = some r ∨
          (lookupCache c d.name = none ∧ r = parseDoc d ∧ r ≠ []) := by
      intro d hd r h
      rcases (runCorpus_cache_spec docs c).2 d.name r h with h2 | ⟨h2, d2, hd2, hdn, hr, hne⟩
      · exact Or.inl h2
      · have : d2 = d := hname d2 hd2 d hd hdn
        subst this
        exact Or.inr ⟨h2, hr, hne⟩
    have hC := runCorpus_contains_nonempty docs c
    have := runCorpus_stable docs c (runCorpus c docs).1 hA hB hC hname
    rw [this]
  refine ⟨processDoc_hit, processDoc_miss_nonempty, processDoc_miss_empty,
    hrun, ?_⟩
  simp only [processFertilizerData, hrun]

/-- C7 witness: one concrete document; the second corpus run reproduces
the first exactly. -/
theorem c7_cache_idempotent_witness :
    runCorpus (runCorpus [] [docV8]).1 [docV8] = runCorpus [] [docV8] :=
  (c7_cache_idempotent [] [docV8] (by decide)).2.2.2.1

/-- C8: with no discovered links, with no document yielding records, or
with an empty regional filter, the aggregator reports the empty-result
condition and performs no aggregation and no write (no exception: the
embedding is a total function). -/
theorem c8_empty_result_policy :
    ∀ (c : Cache) (docs : List Doc),
      (docs = [] → processFertilizerData c docs = RunResult.noLinks) ∧
      (docs ≠ [] → (runCorpus c docs).2 = [] →
        processFertilizerData c docs = RunResult.noData) ∧
      (docs ≠ [] → (runCorpus c docs).2 ≠ [] →
        (runCorpus c docs).2.flatten.filter (fun e => regionMatch e.region) = [] →
        processFertilizerData c docs = RunResult.noRegionData) := by
  intro c docs
  refine ⟨?_, ?_, ?_⟩
  · intro h
    subst h
    rfl
  · intro h1 h2
    simp [processFertilizerData, h1, h2]
  · intro h1 h2 h3
    simp [processFertilizerData, h1, h2, h3]

/-- C8 witness: the three empty-result conditions on concrete inputs,
via the general theorem. -/
theorem c8_empty_result_policy_witness :
    processFertilizerData [] [] = RunResult.noLinks ∧
    processFertilizerData [] [docNoDate] = RunResult.noData ∧
    processFertilizerData [] [docLuzon] = RunResult.noRegionData :=
  ⟨(c8_empty_result_policy [] []).1 rfl,
   (c8_empty_result_policy [] [docNoDate]).2.1 (by decide) (by decide),
   (c8_empty_result_policy [] [docLuzon]).2.2 (by decide) (by decide) (by decide)⟩

end RicePrice
